import Mathlib

/-!
Verification of the wiscopy chunked bulk-fetch pipeline.

The definitions below are a shallow embedding of `src/wiscopy/data.py` and
`src/wiscopy/process.py`.  UTC instants and durations are modelled as integer
seconds; Python's floor division `//` on a positive divisor coincides with
`Int`'s `/` (Euclidean division), which is used throughout.
-/

namespace Wiscopy

/-- Seconds in one day: `timedelta(days=1)` at second resolution. -/
def daySecs : Int := 86400

/-- A half-open `[start, stop)` UTC sub-interval, one element of the
`task_start_and_end_dts` list built inside `gather_async_bulk_measure_data`. -/
structure TimeChunk where
  start : Int
  stop : Int
deriving DecidableEq, Repr

/-- The chunk list computed inside `gather_async_bulk_measure_data`
(`data.py` lines 185-193):

    total_time_delta = end_time - start_time
    task_start_and_end_dts = [
        (start_time + timedelta(days=i*chunk_days),
         start_time + timedelta(days=(i+1)*chunk_days)
           if start_time + timedelta(days=(i+1)*chunk_days) < end_time
           else end_time)
        for i in range(0, total_time_delta.days // chunk_days + 1)
        if start_time + timedelta(days=i*chunk_days) < end_time
    ]

`timedelta.days` is the floor of the duration in whole days, and
`timedelta(days=k)` is `k * 86400` seconds. -/
def task_start_and_end_dts (start_time end_time : Int) (chunk_days : Nat) : List TimeChunk :=
  let total_delta_days : Int := (end_time - start_time) / daySecs
  ((List.range (total_delta_days / (chunk_days : Int) + 1).toNat).filter
      (fun (i : Nat) => decide (start_time + (i : Int) * chunk_days * daySecs < end_time))).map
    (fun (i : Nat) =>
      { start := start_time + (i : Int) * chunk_days * daySecs
        stop :=
          if start_time + ((i : Int) + 1) * chunk_days * daySecs < end_time then
            start_time + ((i : Int) + 1) * chunk_days * daySecs
          else end_time })

/-- Number of chunks produced when `start_time < end_time`:
`⌈(end_time - start_time) / (chunk_days * 86400)⌉` written with integer
floor division. -/
def numChunks (start_time end_time : Int) (chunk_days : Nat) : Nat :=
  ((end_time - start_time - 1) / ((chunk_days : Int) * daySecs) + 1).toNat

/-! ### Arithmetic helpers -/

lemma ediv_ediv_of_pos {a b c : Int} (hb : 0 < b) (hc : 0 < c) :
    a / b / c = a / (b * c) := by
  have hbc : 0 < b * c := mul_pos hb hc
  apply le_antisymm
  · have h1 : a < (a / (b * c) + 1) * (b * c) := Int.lt_ediv_add_one_mul_self a hbc
    have h2 : a < (a / (b * c) + 1) * c * b := by
      calc a < (a / (b * c) + 1) * (b * c) := h1
        _ = (a / (b * c) + 1) * c * b := by ring
    have h3 : a / b < (a / (b * c) + 1) * c := (Int.ediv_lt_iff_lt_mul hb).mpr h2
    have h4 : a / b / c < a / (b * c) + 1 := (Int.ediv_lt_iff_lt_mul hc).mpr h3
    omega
  · have h1 : a / (b * c) * (b * c) ≤ a := Int.ediv_mul_le a (ne_of_gt hbc)
    have h2 : a / (b * c) * c * b ≤ a := by
      calc a / (b * c) * c * b = a / (b * c) * (b * c) := by ring
        _ ≤ a := h1
    have h3 : a / (b * c) * c ≤ a / b := (Int.le_ediv_iff_mul_le hb).mpr h2
    exact (Int.le_ediv_iff_mul_le hc).mpr h3

lemma range_filter_lt (N M : Nat) (h : N ≤ M) :
    (List.range M).filter (fun i => decide (i < N)) = List.range N := by
  induction M with
  | zero =>
    have : N = 0 := Nat.le_zero.mp h
    simp [this]
  | succ m ih =>
    rcases Nat.lt_or_ge m N with hm | hm
    · have hN : N = m + 1 := le_antisymm h hm
      subst hN
      apply List.filter_eq_self.mpr
      intro a ha
      simpa using List.mem_range.mp ha
    · rw [List.range_succ, List.filter_append, ih hm]
      have : ¬ (m < N) := Nat.not_lt.mpr hm
      simp [this]

/-- Pointwise form of the chunker's filter condition: keeping index `i`
means exactly `i < numChunks`. -/
lemma filter_cond_iff (s e : Int) (d : Nat) (hse : s < e) (hd : 1 ≤ d) (i : Nat) :
    (s + (i : Int) * d * daySecs < e) ↔ i < numChunks s e d := by
  have hC : (0 : Int) < (d : Int) * daySecs := by
    have hd1 : (1 : Int) ≤ (d : Int) := by exact_mod_cast hd
    have : (0 : Int) < daySecs := by norm_num [daySecs]
    nlinarith
  have hT : (0 : Int) ≤ e - s - 1 := by omega
  have hq : (0 : Int) ≤ (e - s - 1) / ((d : Int) * daySecs) :=
    Int.ediv_nonneg hT (le_of_lt hC)
  constructor
  · intro h
    have h1 : (i : Int) * ((d : Int) * daySecs) ≤ e - s - 1 := by
      have : (i : Int) * d * daySecs = (i : Int) * ((d : Int) * daySecs) := by ring
      omega
    have h2 : (i : Int) ≤ (e - s - 1) / ((d : Int) * daySecs) :=
      (Int.le_ediv_iff_mul_le hC).mpr h1
    have : (i : Int) < (e - s - 1) / ((d : Int) * daySecs) + 1 := by omega
    have hcast : (i : Int) < ((numChunks s e d : Nat) : Int) := by
      unfold numChunks
      rwa [Int.toNat_of_nonneg (by omega)]
    exact_mod_cast hcast
  · intro h
    have hcast : (i : Int) < ((numChunks s e d : Nat) : Int) := by exact_mod_cast h
    unfold numChunks at hcast
    rw [Int.toNat_of_nonneg (by omega)] at hcast
    have h2 : (i : Int) ≤ (e - s - 1) / ((d : Int) * daySecs) := by omega
    have h3 : (i : Int) * ((d : Int) * daySecs) ≤ e - s - 1 :=
      (Int.le_ediv_iff_mul_le hC).mp h2
    have : (i : Int) * d * daySecs = (i : Int) * ((d : Int) * daySecs) := by ring
    omega

/-- The range bound `total_delta.days // chunk_days + 1` is at least
`numChunks`, so the filter trims the range to exactly `numChunks` indices. -/
lemma numChunks_le_range_bound (s e : Int) (d : Nat) (hse : s < e) (hd : 1 ≤ d) :
    numChunks s e d ≤ (((e - s) / daySecs) / (d : Int) + 1).toNat := by
  have hday : (0 : Int) < daySecs := by norm_num [daySecs]
  have hd0 : (0 : Int) < (d : Int) := by exact_mod_cast hd
  have hC : (0 : Int) < (d : Int) * daySecs := mul_pos hd0 hday
  have hcomp : (e - s) / daySecs / (d : Int) = (e - s) / ((d : Int) * daySecs) := by
    rw [ediv_ediv_of_pos hday hd0, mul_comm]
  have hmono : (e - s - 1) / ((d : Int) * daySecs) ≤ (e - s) / ((d : Int) * daySecs) :=
    Int.ediv_le_ediv hC (by omega)
  have h1 : (0 : Int) ≤ (e - s - 1) / ((d : Int) * daySecs) :=
    Int.ediv_nonneg (by omega) (le_of_lt hC)
  unfold numChunks
  rw [hcomp]
  omega

/-- Characterization of the chunk list when `start_time < end_time`:
it is `numChunks` chunks, the `i`-th starting at `s + i * chunk_days` days. -/
lemma chunks_eq_map (s e : Int) (d : Nat) (hse : s < e) (hd : 1 ≤ d) :
    task_start_and_end_dts s e d =
      (List.range (numChunks s e d)).map
        (fun (i : Nat) =>
          { start := s + (i : Int) * d * daySecs
            stop :=
              if s + ((i : Int) + 1) * d * daySecs < e then
                s + ((i : Int) + 1) * d * daySecs
              else e : TimeChunk }) := by
  unfold task_start_and_end_dts
  dsimp only
  congr 1
  have hcong :
      (List.range (((e - s) / daySecs / (d : Int) + 1).toNat)).filter
          (fun (i : Nat) => decide (s + (i : Int) * d * daySecs < e)) =
        (List.range (((e - s) / daySecs / (d : Int) + 1).toNat)).filter
          (fun (i : Nat) => decide (i < numChunks s e d)) := by
    apply List.filter_congr
    intro i _
    have := filter_cond_iff s e d hse hd i
    by_cases h : i < numChunks s e d
    · simp [h, this.mpr h]
    · have hnot : ¬ (s + (i : Int) * d * daySecs < e) := fun hc => h (this.mp hc)
      simp [h, hnot]
  rw [hcong, range_filter_lt _ _ (numChunks_le_range_bound s e d hse hd)]

/-- `numChunks` is the ceiling of the duration over the chunk length. -/
lemma numChunks_eq_ceil (s e : Int) (d : Nat) (hse : s < e) (hd : 1 ≤ d) :
    ((numChunks s e d : Nat) : Int) =
      ⌈((e - s : Int) : ℚ) / (((d : Int) * daySecs : Int) : ℚ)⌉ := by
  have hday : (0 : Int) < daySecs := by norm_num [daySecs]
  have hd0 : (0 : Int) < (d : Int) := by exact_mod_cast hd
  have hC : (0 : Int) < (d : Int) * daySecs := mul_pos hd0 hday
  set C : Int := (d : Int) * daySecs with hCdef
  set T : Int := e - s with hTdef
  have hT : (1 : Int) ≤ T := by omega
  have hq : (0 : Int) ≤ (T - 1) / C := Int.ediv_nonneg (by omega) (le_of_lt hC)
  have hnum : ((numChunks s e d : Nat) : Int) = (T - 1) / C + 1 := by
    unfold numChunks
    rw [← hCdef, ← hTdef, Int.toNat_of_nonneg (by omega)]
  rw [hnum]
  symm
  rw [Int.ceil_eq_iff]
  have hCQ : (0 : ℚ) < (C : ℚ) := by exact_mod_cast hC
  constructor
  · have h1 : (T - 1) / C * C ≤ T - 1 := Int.ediv_mul_le (T - 1) (ne_of_gt hC)
    have h2 : (T - 1) / C * C < T := by omega
    have h2q : (((T - 1) / C : Int) : ℚ) * (C : ℚ) < (T : ℚ) := by exact_mod_cast h2
    have := (lt_div_iff₀ hCQ).mpr h2q
    push_cast
    linarith
  · have h1 : T - 1 < ((T - 1) / C + 1) * C := Int.lt_ediv_add_one_mul_self (T - 1) hC
    have h2 : T ≤ ((T - 1) / C + 1) * C := by omega
    have h2q : (T : ℚ) ≤ (((T - 1) / C + 1 : Int) : ℚ) * (C : ℚ) := by exact_mod_cast h2
    have := (div_le_iff₀ hCQ).mpr h2q
    push_cast at this ⊢
    linarith

/-- Element `i` of the chunk list, for `i < numChunks`. -/
lemma chunks_getD (s e : Int) (d : Nat) (hse : s < e) (hd : 1 ≤ d) (i : Nat)
    (hi : i < numChunks s e d) :
    (task_start_and_end_dts s e d).getD i ⟨0, 0⟩ =
      { start := s + (i : Int) * d * daySecs
        stop :=
          if s + ((i : Int) + 1) * d * daySecs < e then
            s + ((i : Int) + 1) * d * daySecs
          else e } := by
  rw [chunks_eq_map s e d hse hd, List.getD_eq_getElem?_getD, List.getElem?_map,
    List.getElem?_range hi]
  rfl

/-- Length of the chunk list equals `numChunks` when `s < e`. -/
lemma chunks_length (s e : Int) (d : Nat) (hse : s < e) (hd : 1 ≤ d) :
    (task_start_and_end_dts s e d).length = numChunks s e d := by
  rw [chunks_eq_map s e d hse hd, List.length_map, List.length_range]

/-- Last chunk's stop is clipped to `e`. -/
lemma chunks_last_stop (s e : Int) (d : Nat) (hse : s < e) (hd : 1 ≤ d) :
    ¬ (s + ((numChunks s e d - 1 : Nat) : Int) * d * daySecs + (d : Int) * daySecs < e) := by
  have hday : (0 : Int) < daySecs := by norm_num [daySecs]
  have hd0 : (0 : Int) < (d : Int) := by exact_mod_cast hd
  have hC : (0 : Int) < (d : Int) * daySecs := mul_pos hd0 hday
  have hq : (0 : Int) ≤ (e - s - 1) / ((d : Int) * daySecs) :=
    Int.ediv_nonneg (by omega) (le_of_lt hC)
  have hN : ((numChunks s e d : Nat) : Int) = (e - s - 1) / ((d : Int) * daySecs) + 1 := by
    unfold numChunks
    rw [Int.toNat_of_nonneg (by omega)]
  have hpos : 1 ≤ numChunks s e d := by
    have : (1 : Int) ≤ ((numChunks s e d : Nat) : Int) := by omega
    exact_mod_cast this
  have hcast : ((numChunks s e d - 1 : Nat) : Int) = ((numChunks s e d : Nat) : Int) - 1 := by
    omega
  have h1 : e - s - 1 <
      ((e - s - 1) / ((d : Int) * daySecs) + 1) * ((d : Int) * daySecs) :=
    Int.lt_ediv_add_one_mul_self (e - s - 1) hC
  intro hlt
  rw [hcast] at hlt
  nlinarith [hN, h1]

/-- All the properties claim C1 states about the chunk sequence computed
inside `gather_async_bulk_measure_data`: chunk count is the ceiling of the
duration over `chunk_days`, chunks are nonempty, ascending by start,
contiguous, of positive length, first start is `start_time`, last stop is
`end_time`, every chunk but possibly the last is exactly `chunk_days` long,
and none exceeds `chunk_days`. -/
def chunks_spec (s e : Int) (d : Nat) : Prop :=
  let ch := task_start_and_end_dts s e d
  ((ch.length : Int) = ⌈((e - s : Int) : ℚ) / (((d : Int) * daySecs : Int) : ℚ)⌉)
  ∧ ch ≠ []
  ∧ (∀ i : Nat, i < ch.length → (ch.getD i ⟨0, 0⟩).start = s + (i : Int) * d * daySecs)
  ∧ (∀ i : Nat, i + 1 < ch.length →
      (ch.getD i ⟨0, 0⟩).stop = (ch.getD (i + 1) ⟨0, 0⟩).start)
  ∧ (∀ i : Nat, i < ch.length → (ch.getD i ⟨0, 0⟩).start < (ch.getD i ⟨0, 0⟩).stop)
  ∧ List.Pairwise (fun a b => a.start < b.start) ch
  ∧ ch.head?.map TimeChunk.start = some s
  ∧ ch.getLast?.map TimeChunk.stop = some e
  ∧ (∀ i : Nat, i + 1 < ch.length →
      (ch.getD i ⟨0, 0⟩).stop - (ch.getD i ⟨0, 0⟩).start = (d : Int) * daySecs)
  ∧ (∀ i : Nat, i < ch.length →
      (ch.getD i ⟨0, 0⟩).stop - (ch.getD i ⟨0, 0⟩).start ≤ (d : Int) * daySecs)

/-- C1: for every pair of UTC instants `start_time < end_time` and every
`chunk_days ≥ 1`, the chunk sequence computed inside
`gather_async_bulk_measure_data` is ordered ascending by start, contiguous,
non-overlapping, starts at `start_time`, ends at `end_time`, has exactly
`⌈(end_time - start_time) / chunk_days⌉` chunks, and every chunk except
possibly the last has length exactly `chunk_days` days, the last being
clipped to `end_time`. -/
theorem gather_chunks_correct (s e : Int) (d : Nat) (hse : s < e) (hd : 1 ≤ d) :
    chunks_spec s e d := by
  have hday : (0 : Int) < daySecs := by norm_num [daySecs]
  have hd0 : (0 : Int) < (d : Int) := by exact_mod_cast hd
  have hC : (0 : Int) < (d : Int) * daySecs := mul_pos hd0 hday
  have hlen := chunks_length s e d hse hd
  have hpos : 1 ≤ numChunks s e d := by
    have h0 := (filter_cond_iff s e d hse hd 0).mp (by simpa using hse)
    omega
  have hget := chunks_getD s e d hse hd
  have hstart : ∀ i : Nat, i < numChunks s e d →
      ((task_start_and_end_dts s e d).getD i ⟨0, 0⟩).start = s + (i : Int) * d * daySecs := by
    intro i hi
    rw [hget i hi]
  have hstop : ∀ i : Nat, i < numChunks s e d →
      ((task_start_and_end_dts s e d).getD i ⟨0, 0⟩).stop =
        if s + ((i : Int) + 1) * d * daySecs < e then
          s + ((i : Int) + 1) * d * daySecs
        else e := by
    intro i hi
    rw [hget i hi]
  have hstop_nonlast : ∀ i : Nat, i + 1 < numChunks s e d →
      ((task_start_and_end_dts s e d).getD i ⟨0, 0⟩).stop =
        s + ((i : Int) + 1) * d * daySecs := by
    intro i hi
    have hcond : s + ((i + 1 : Nat) : Int) * d * daySecs < e :=
      (filter_cond_iff s e d hse hd (i + 1)).mpr hi
    rw [hstop i (by omega), if_pos (by push_cast at hcond ⊢; linarith)]
  have hlt_e : ∀ i : Nat, i < numChunks s e d → s + (i : Int) * d * daySecs < e := by
    intro i hi
    exact (filter_cond_iff s e d hse hd i).mpr hi
  refine ⟨?_, ?_, ?_, ?_, ?_, ?_, ?_, ?_, ?_, ?_⟩
  · rw [hlen]
    exact numChunks_eq_ceil s e d hse hd
  · intro hnil
    have : (task_start_and_end_dts s e d).length = 0 := by rw [hnil]; rfl
    omega
  · intro i hi
    exact hstart i (hlen ▸ hi)
  · intro i hi
    rw [hlen] at hi
    rw [hstop_nonlast i hi, hstart (i + 1) (by omega)]
    push_cast
    ring
  · intro i hi
    rw [hlen] at hi
    rw [hstart i hi, hstop i hi]
    by_cases hcase : s + ((i : Int) + 1) * d * daySecs < e
    · rw [if_pos hcase]
      nlinarith
    · rw [if_neg hcase]
      exact hlt_e i hi
  · rw [chunks_eq_map s e d hse hd]
    refine List.Pairwise.map _ (fun i j (hij : i < j) => ?_) (List.pairwise_lt_range _)
    show s + (i : Int) * d * daySecs < s + (j : Int) * d * daySecs
    have : (i : Int) < (j : Int) := by exact_mod_cast hij
    nlinarith
  · have h0 : 0 < (task_start_and_end_dts s e d).length := by omega
    have hs0 := hstart 0 (by omega)
    rw [List.getD_eq_getElem?_getD, List.getElem?_eq_getElem h0] at hs0
    rw [List.head?_eq_getElem?, List.getElem?_eq_getElem h0]
    simp only [Option.getD_some] at hs0
    simp only [Option.map_some']
    rw [hs0]
    norm_num
  · have h0 : 0 < (task_start_and_end_dts s e d).length := by omega
    have hidx : (task_start_and_end_dts s e d).length - 1 < numChunks s e d := by omega
    have hgetlast := hstop ((task_start_and_end_dts s e d).length - 1) hidx
    have hcond : ¬ (s + (((task_start_and_end_dts s e d).length - 1 : Nat) : Int) * d * daySecs
        + (d : Int) * daySecs < e) := by
      rw [hlen]
      exact chunks_last_stop s e d hse hd
    rw [if_neg (by intro hlt; apply hcond; nlinarith)] at hgetlast
    rw [List.getD_eq_getElem?_getD, List.getElem?_eq_getElem (by omega)] at hgetlast
    simp only [Option.getD_some] at hgetlast
    rw [List.getLast?_eq_getElem?, List.getElem?_eq_getElem (by omega)]
    simp only [Option.map_some']
    rw [hgetlast]
  · intro i hi
    rw [hlen] at hi
    rw [hstop_nonlast i hi, hstart i (by omega)]
    ring
  · intro i hi
    rw [hlen] at hi
    rw [hstart i hi, hstop i hi]
    by_cases hcase : s + ((i : Int) + 1) * d * daySecs < e
    · rw [if_pos hcase]
      ring_nf
      nlinarith
    · rw [if_neg hcase]
      push_cast at hcase ⊢
      nlinarith

/-- Witness for C1 at the spec's end-to-end scenario: a 62-day range with
30-day chunks (3 chunks of lengths 30, 30 and 2 days). -/
theorem gather_chunks_correct_witness : chunks_spec 0 5356800 30 :=
  gather_chunks_correct 0 5356800 30 (by norm_num) (by norm_num)

/-! ### Data model (`schema.py`) -/

/-- `schema.Field`: metadata for one measurable quantity. -/
structure Field where
  id : Int
  collection_frequency : Option String
  conversion_type : Option String
  data_type : Option String
  final_units : Option String
  measure_type : Option String
  qualifier : Option String
  sensor : Option String
  source_field : Option String
  source_units : Option String
  standard_name : Option String
  units_abbrev : Option String
  use_for : Option String
deriving DecidableEq, Repr

/-- A measured value as carried on the wire (entries of
`list[str | int | float]`); the reshaper treats values as opaque payload. -/
inductive Value where
  | vstr (v : String)
  | vint (v : Int)
deriving DecidableEq, Repr

/-- `schema.DataByTime`: one epoch-seconds instant with its ordered
`(field_id, value)` pairs. -/
structure DataByTime where
  collection_time : Int
  measures : List (Int × Value)
deriving DecidableEq, Repr

/-- `schema.BulkMeasures`: a field catalog plus rows grouped by time. -/
structure BulkMeasures where
  fieldlist : List Field
  data : List DataByTime
deriving DecidableEq, Repr

/-! ### Timezones and timestamps

The zoneinfo database is an external collaborator: a zone resolves to its
UTC offset, as a function of the UTC instant (for converting aware
timestamps) and as a function of a local wall-clock reading (ZoneInfo
attached to a naive datetime resolves by wall clock). -/

/-- A resolved IANA timezone. -/
structure Timezone where
  name : String
  offsetAt : Int → Int
  offsetAtWall : Int → Int

/-- The UTC zone: offset 0 everywhere. -/
def utcTimezone : Timezone :=
  { name := "UTC", offsetAt := fun _ => 0, offsetAtWall := fun _ => 0 }

/-- The zone `America/Chicago` as resolved for 2024: CST (UTC-6) outside
daylight saving, CDT (UTC-5) between the 2024-03-10 and 2024-11-03
transitions. -/
def americaChicago : Timezone :=
  { name := "America/Chicago"
    offsetAt := fun t => if 1710054000 ≤ t ∧ t < 1730617200 then -18000 else -21600
    offsetAtWall := fun w => if 1710061200 ≤ w ∧ w < 1730610000 then -18000 else -21600 }

/-- A pandas timestamp: the UTC instant it denotes (epoch seconds) plus the
display timezone (`none` = naive).  pandas stores a tz-aware timestamp as a
UTC instant together with a zone used only for display. -/
structure Timestamp where
  instant : Int
  tz : Option Timezone

/-- `pd.to_datetime(secs, unit="s")`: a naive timestamp whose wall clock is
the UTC reading of `secs`. -/
def to_datetime_epoch (secs : Int) : Timestamp := { instant := secs, tz := none }

/-- `pd.to_datetime(ts, utc=True)` on a naive timestamp: interpret it as
UTC. -/
def to_datetime_utc (t : Timestamp) : Timestamp :=
  { instant := t.instant, tz := some utcTimezone }

/-- `Series.dt.tz_convert(tz)`: change the display zone; the UTC instant is
unchanged (a conversion, not a relabeling of the wall clock). -/
def tz_convert (z : Timezone) (t : Timestamp) : Timestamp :=
  { instant := t.instant, tz := some z }

/-- The pipeline `bulk_measures_to_df` applies to the `collection_time`
column (`process.py` lines 96-99): interpret the epoch value as UTC, then
convert to the target zone when one is given. -/
def reshaped_collection_time (secs : Int) (tz : Option Timezone) : Timestamp :=
  match tz with
  | some z => tz_convert z (to_datetime_utc (to_datetime_epoch secs))
  | none => to_datetime_utc (to_datetime_epoch secs)

/-- The UTC epoch seconds a timestamp denotes (converting back to UTC). -/
def toEpochUtc (t : Timestamp) : Int := t.instant

/-- The local wall-clock reading a timestamp displays. -/
def wallClock (t : Timestamp) : Int :=
  match t.tz with
  | none => t.instant
  | some z => t.instant + z.offsetAt t.instant

/-! ### Tabular reshaper (`process.py`) -/

/-- One output row of the reshaper: the dict
`{"collection_time": ..., "value": ...} | field.model_dump()` plus the
optional `station_id` column added afterwards. -/
structure Row where
  collection_time : Timestamp
  value : Value
  field : Field
  station_id : Option String

/-- The dict `{field.id: field for field in bms.fieldlist}`: on duplicate
ids a later field overwrites an earlier one, so lookup finds the last
match. -/
def field_lookup (fieldlist : List Field) (i : Int) : Option Field :=
  fieldlist.reverse.find? (fun f => f.id == i)

/-- The inner row-building loop of `bulk_measures_to_df` over one
`DataByTime` (`process.py` lines 78-86).  A `field_id` missing from the
lookup dict raises `KeyError`, modelled as `Except.error field_id`. -/
def rows_for_measures (lookup : Int → Option Field) (ct : Int) :
    List (Int × Value) → Except Int (List Row)
  | [] => .ok []
  | m :: ms =>
    match lookup m.1 with
    | none => .error m.1
    | some f =>
      match rows_for_measures lookup ct ms with
      | .error e => .error e
      | .ok rs =>
        .ok ({ collection_time := to_datetime_epoch ct, value := m.2,
               field := f, station_id := none } :: rs)

/-- The outer loop of `bulk_measures_to_df` over `bms.data`. -/
def build_rows (lookup : Int → Option Field) : List DataByTime → Except Int (List Row)
  | [] => .ok []
  | c :: cs =>
    match rows_for_measures lookup c.collection_time c.measures with
    | .error e => .error e
    | .ok rs =>
      match build_rows lookup cs with
      | .error e => .error e
      | .ok rest => .ok (rs ++ rest)

/-- `process.bulk_measures_to_df`.  `Except.error fid` models the `KeyError`
raised for an unresolvable `field_id`; `.ok none` is the explicit empty
sentinel (Python `None`); `.ok (some rows)` is the DataFrame indexed by
`collection_time`. -/
def bulk_measures_to_df (bms : BulkMeasures) (tz : Option Timezone)
    (station_id : String) : Except Int (Option (List Row)) :=
  match build_rows (field_lookup bms.fieldlist) bms.data with
  | .error e => .error e
  | .ok rows =>
    if rows.isEmpty then .ok none
    else
      let rows1 :=
        if station_id ≠ "" then
          rows.map (fun r => { r with station_id := some station_id })
        else rows
      let rows2 := rows1.map (fun r =>
        { r with collection_time := reshaped_collection_time r.collection_time.instant tz })
      .ok (some rows2)

/-- The loop of `multiple_bulk_measures_to_df` collecting the non-empty
per-`BulkMeasures` DataFrames in order. -/
def collect_dfs (tz : Option Timezone) (station_id : String) :
    List BulkMeasures → Except Int (List (List Row))
  | [] => .ok []
  | bm :: rest =>
    match bulk_measures_to_df bm tz station_id with
    | .error e => .error e
    | .ok none => collect_dfs tz station_id rest
    | .ok (some df) =>
      match collect_dfs tz station_id rest with
      | .error e => .error e
      | .ok dfs => .ok (df :: dfs)

/-- `process.multiple_bulk_measures_to_df`: convert each `BulkMeasures`,
keep the non-`None` DataFrames, and `pd.concat` them (an ordered append);
`None` when nothing remains. -/
def multiple_bulk_measures_to_df (bulk_measures_list : List BulkMeasures)
    (tz : Option Timezone) (station_id : String) : Except Int (Option (List Row)) :=
  match collect_dfs tz station_id bulk_measures_list with
  | .error e => .error e
  | .ok dfs => if dfs.isEmpty then .ok none else .ok (some dfs.flatten)

/-! ### Reshaper lemmas -/

lemma field_lookup_eq_none (fl : List Field) (i : Int)
    (h : ∀ f ∈ fl, f.id ≠ i) : field_lookup fl i = none := by
  unfold field_lookup
  rw [List.find?_eq_none]
  intro f hf
  have : f ∈ fl := List.mem_reverse.mp hf
  simpa using h f this

lemma field_lookup_isSome (fl : List Field) (i : Int)
    (h : ∃ f ∈ fl, f.id = i) : (field_lookup fl i).isSome := by
  unfold field_lookup
  rw [List.find?_isSome]
  obtain ⟨f, hf, hid⟩ := h
  exact ⟨f, List.mem_reverse.mpr hf, by simpa using hid⟩

lemma field_lookup_mem {fl : List Field} {i : Int} {f : Field}
    (h : field_lookup fl i = some f) : f ∈ fl ∧ f.id = i := by
  unfold field_lookup at h
  refine ⟨List.mem_reverse.mp (List.mem_of_find?_eq_some h), ?_⟩
  have := List.find?_some h
  simpa using this

lemma rows_for_measures_error (lookup : Int → Option Field) (ct : Int)
    (ms : List (Int × Value)) (m : Int × Value) (hm : m ∈ ms)
    (hnone : lookup m.1 = none) :
    ∃ e, rows_for_measures lookup ct ms = .error e := by
  induction ms with
  | nil => cases hm
  | cons hd tl ih =>
    rcases List.mem_cons.mp hm with hhd | htl
    · subst hhd
      exact ⟨m.1, by unfold rows_for_measures; rw [hnone]⟩
    · unfold rows_for_measures
      cases hlk : lookup hd.1 with
      | none => exact ⟨hd.1, rfl⟩
      | some f =>
        obtain ⟨e, he⟩ := ih htl
        rw [he]
        exact ⟨e, rfl⟩

lemma rows_for_measures_ok (lookup : Int → Option Field) (ct : Int)
    (ms : List (Int × Value)) (hres : ∀ m ∈ ms, (lookup m.1).isSome) :
    ∃ rs, rows_for_measures lookup ct ms = .ok rs ∧ rs.length = ms.length ∧
      ∀ r ∈ rs, ∃ m ∈ ms, r.value = m.2 ∧ lookup m.1 = some r.field ∧
        r.station_id = none ∧ r.collection_time = to_datetime_epoch ct := by
  induction ms with
  | nil => exact ⟨[], rfl, rfl, by intro r hr; cases hr⟩
  | cons hd tl ih =>
    have hhd : (lookup hd.1).isSome := hres hd (List.mem_cons_self hd tl)
    obtain ⟨f, hf⟩ := Option.isSome_iff_exists.mp hhd
    obtain ⟨rs, hrs, hlen, hprop⟩ := ih (fun m hm => hres m (List.mem_cons_of_mem hd hm))
    refine ⟨_, by unfold rows_for_measures; rw [hf, hrs], by simp [hlen], ?_⟩
    intro r hr
    rcases List.mem_cons.mp hr with hr0 | hrtl
    · subst hr0
      exact ⟨hd, List.mem_cons_self hd tl, rfl, hf, rfl, rfl⟩
    · obtain ⟨m, hm, hv, hlk, hsid, hct⟩ := hprop r hrtl
      exact ⟨m, List.mem_cons_of_mem hd hm, hv, hlk, hsid, hct⟩

lemma build_rows_error (lookup : Int → Option Field) (data : List DataByTime)
    (c : DataByTime) (m : Int × Value) (hc : c ∈ data) (hm : m ∈ c.measures)
    (hnone : lookup m.1 = none) :
    ∃ e, build_rows lookup data = .error e := by
  induction data with
  | nil => cases hc
  | cons hd tl ih =>
    rcases List.mem_cons.mp hc with hhd | htl
    · subst hhd
      obtain ⟨e, he⟩ := rows_for_measures_error lookup c.collection_time c.measures m hm hnone
      exact ⟨e, by unfold build_rows; rw [he]⟩
    · unfold build_rows
      cases hrows : rows_for_measures lookup hd.collection_time hd.measures with
      | error e => exact ⟨e, rfl⟩
      | ok rs =>
        obtain ⟨e, he⟩ := ih htl
        rw [he]
        exact ⟨e, rfl⟩

lemma build_rows_ok (lookup : Int → Option Field) (data : List DataByTime)
    (hres : ∀ c ∈ data, ∀ m ∈ c.measures, (lookup m.1).isSome) :
    ∃ rs, build_rows lookup data = .ok rs ∧
      rs.length = (data.map (fun c => c.measures.length)).sum ∧
      ∀ r ∈ rs, ∃ c ∈ data, ∃ m ∈ c.measures, r.value = m.2 ∧
        lookup m.1 = some r.field ∧ r.station_id = none ∧
        r.collection_time = to_datetime_epoch c.collection_time := by
  induction data with
  | nil => exact ⟨[], rfl, rfl, by intro r hr; cases hr⟩
  | cons hd tl ih =>
    obtain ⟨rs0, hrs0, hlen0, hprop0⟩ :=
      rows_for_measures_ok lookup hd.collection_time hd.measures
        (fun m hm => hres hd (List.mem_cons_self hd tl) m hm)
    obtain ⟨rs1, hrs1, hlen1, hprop1⟩ :=
      ih (fun c hc m hm => hres c (List.mem_cons_of_mem hd hc) m hm)
    refine ⟨rs0 ++ rs1, by unfold build_rows; rw [hrs0, hrs1], by simp [hlen0, hlen1], ?_⟩
    intro r hr
    rcases List.mem_append.mp hr with h0 | h1
    · obtain ⟨m, hm, hv, hlk, hsid, hct⟩ := hprop0 r h0
      exact ⟨hd, List.mem_cons_self hd tl, m, hm, hv, hlk, hsid, hct⟩
    · obtain ⟨c, hc, m, hm, hv, hlk, hsid, hct⟩ := hprop1 r h1
      exact ⟨c, List.mem_cons_of_mem hd hc, m, hm, hv, hlk, hsid, hct⟩

lemma build_rows_all_empty (lookup : Int → Option Field) (data : List DataByTime)
    (h : ∀ c ∈ data, c.measures = []) : build_rows lookup data = .ok [] := by
  induction data with
  | nil => rfl
  | cons hd tl ih =>
    have hhd : hd.measures = [] := h hd (List.mem_cons_self hd tl)
    have htl := ih (fun c hc => h c (List.mem_cons_of_mem hd hc))
    unfold build_rows
    rw [hhd]
    simp only [rows_for_measures]
    rw [htl]
    rfl

/-- C2: a measurement row whose `field_id` is no Field's id in `fieldlist`
makes `bulk_measures_to_df` fail with an error; it never skips the row and
never returns a table. -/
theorem unresolvable_field_id_fails (bms : BulkMeasures) (tz : Option Timezone)
    (station_id : String) (c : DataByTime) (m : Int × Value)
    (hc : c ∈ bms.data) (hm : m ∈ c.measures)
    (hnone : ∀ f ∈ bms.fieldlist, f.id ≠ m.1) :
    ∃ e, bulk_measures_to_df bms tz station_id = .error e := by
  have hlk : field_lookup bms.fieldlist m.1 = none := field_lookup_eq_none _ _ hnone
  obtain ⟨e, he⟩ := build_rows_error (field_lookup bms.fieldlist) bms.data c m hc hm hlk
  exact ⟨e, by unfold bulk_measures_to_df; rw [he]⟩

/-- A concrete field used by witnesses: metadata all absent. -/
def sampleField (i : Int) : Field :=
  { id := i, collection_frequency := none, conversion_type := none, data_type := none,
    final_units := none, measure_type := none, qualifier := none, sensor := none,
    source_field := none, source_units := none, standard_name := none,
    units_abbrev := none, use_for := none }

/-- Witness for C2: one field with id 1 in the catalog, one row referencing
field id 2. -/
theorem unresolvable_field_id_fails_witness :
    ∃ e, bulk_measures_to_df
      { fieldlist := [sampleField 1]
        data := [{ collection_time := 100, measures := [(2, Value.vint 7)] }] }
      none "" = .error e :=
  unresolvable_field_id_fails _ none ""
    { collection_time := 100, measures := [(2, Value.vint 7)] } (2, Value.vint 7)
    (by simp) (by simp) (by intro f hf; simp at hf; simp [hf, sampleField])

/-- C3: with `M ≥ 1` entries of `K ≥ 1` measures each, all resolvable in a
catalog with distinct ids, the reshaper returns a table of exactly `M * K`
rows, each pairing the measure's value with the metadata of the unique
catalog field whose id equals the measure's `field_id`. -/
theorem unpivot_complete (bms : BulkMeasures) (tz : Option Timezone)
    (station_id : String) (M K : Nat) (hM : 1 ≤ M) (hK : 1 ≤ K)
    (hlen : bms.data.length = M)
    (hKlen : ∀ c ∈ bms.data, c.measures.length = K)
    (hres : ∀ c ∈ bms.data, ∀ m ∈ c.measures, ∃ f ∈ bms.fieldlist, f.id = m.1)
    (huniq : (bms.fieldlist.map Field.id).Nodup) :
    ∃ rows, bulk_measures_to_df bms tz station_id = .ok (some rows) ∧
      rows.length = M * K ∧
      ∀ r ∈ rows, r.field ∈ bms.fieldlist ∧
        ∃ c ∈ bms.data, ∃ m ∈ c.measures, r.value = m.2 ∧ r.field.id = m.1 ∧
          ∀ f ∈ bms.fieldlist, f.id = m.1 → f = r.field := by
  obtain ⟨rs, hrs, hrslen, hprop⟩ :=
    build_rows_ok (field_lookup bms.fieldlist) bms.data
      (fun c hc m hm => field_lookup_isSome _ _ (hres c hc m hm))
  have hsum : (bms.data.map (fun c => c.measures.length)).sum = M * K := by
    have hrep : bms.data.map (fun c => c.measures.length) = List.replicate M K := by
      rw [List.eq_replicate_iff]
      constructor
      · simpa using hlen
      · intro b hb
        obtain ⟨c, hc, hbc⟩ := List.mem_map.mp hb
        rw [← hbc]
        exact hKlen c hc
    rw [hrep, List.sum_replicate, smul_eq_mul]
  have hlenMK : rs.length = M * K := by rw [hrslen, hsum]
  have hMK : 0 < M * K := Nat.mul_pos hM hK
  have hne : ¬ rs.isEmpty := by
    intro hempty
    have : rs.length = 0 := by
      cases rs with
      | nil => rfl
      | cons a l => simp [List.isEmpty] at hempty
    omega
  have hrowfacts : ∀ r ∈ rs, r.field ∈ bms.fieldlist ∧
      ∃ c ∈ bms.data, ∃ m ∈ c.measures, r.value = m.2 ∧ r.field.id = m.1 ∧
        ∀ f ∈ bms.fieldlist, f.id = m.1 → f = r.field := by
    intro r hr
    obtain ⟨c, hc, m, hm, hv, hlk, hsid, hct⟩ := hprop r hr
    obtain ⟨hmem, hid⟩ := field_lookup_mem hlk
    refine ⟨hmem, c, hc, m, hm, hv, hid, ?_⟩
    intro f hf hfid
    exact List.inj_on_of_nodup_map huniq hf hmem (by rw [hfid, hid])
  refine ⟨((if station_id ≠ "" then
      rs.map (fun r => { r with station_id := some station_id }) else rs).map
        (fun r =>
          { r with collection_time := reshaped_collection_time r.collection_time.instant tz })),
    ?_, ?_, ?_⟩
  · unfold bulk_measures_to_df
    rw [hrs]
    simp only [Bool.not_eq_true] at hne
    simp [hne]
  · rw [List.length_map]
    by_cases hsid : station_id ≠ ""
    · rw [if_pos hsid, List.length_map, hlenMK]
    · rw [if_neg hsid, hlenMK]
  · intro r hr
    simp only [List.mem_map] at hr
    by_cases hsid : station_id ≠ ""
    · rw [if_pos hsid] at hr
      obtain ⟨r1, hr1, hr1r⟩ := hr
      simp only [List.mem_map] at hr1
      obtain ⟨r0, hr0, hr0r1⟩ := hr1
      have := hrowfacts r0 hr0
      rw [← hr1r, ← hr0r1]
      exact this
    · rw [if_neg hsid] at hr
      obtain ⟨r0, hr0, hr0r⟩ := hr
      have := hrowfacts r0 hr0
      rw [← hr0r]
      exact this

/-- Witness for C3: one entry with one resolvable measure (M = K = 1). -/
theorem unpivot_complete_witness :
    ∃ rows, bulk_measures_to_df
      { fieldlist := [sampleField 5]
        data := [{ collection_time := 100, measures := [(5, Value.vint 7)] }] }
      none "ALTN" = .ok (some rows) ∧
      rows.length = 1 * 1 ∧
      ∀ r ∈ rows, r.field ∈ [sampleField 5] ∧
        ∃ c ∈ [{ collection_time := 100, measures := [(5, Value.vint 7)] : DataByTime }],
          ∃ m ∈ c.measures, r.value = m.2 ∧ r.field.id = m.1 ∧
            ∀ f ∈ [sampleField 5], f.id = m.1 → f = r.field :=
  unpivot_complete _ none "ALTN" 1 1 (by norm_num) (by norm_num) (by simp)
    (by intro c hc; simp at hc; simp [hc])
    (by
      intro c hc m hm
      simp at hc
      subst hc
      simp at hm
      exact ⟨sampleField 5, by simp, by simp [hm, sampleField]⟩)
    (by simp)

lemma bulk_measures_to_df_all_empty (bms : BulkMeasures) (tz : Option Timezone)
    (station_id : String) (h : ∀ c ∈ bms.data, c.measures = []) :
    bulk_measures_to_df bms tz station_id = .ok none := by
  unfold bulk_measures_to_df
  rw [build_rows_all_empty _ _ h]
  rfl

lemma collect_dfs_all_empty (tz : Option Timezone) (station_id : String)
    (l : List BulkMeasures) (h : ∀ bm ∈ l, ∀ c ∈ bm.data, c.measures = []) :
    collect_dfs tz station_id l = .ok [] := by
  induction l with
  | nil => rfl
  | cons hd tl ih =>
    unfold collect_dfs
    rw [bulk_measures_to_df_all_empty hd tz station_id (h hd (List.mem_cons_self hd tl))]
    exact ih (fun bm hbm => h bm (List.mem_cons_of_mem hd hbm))

/-- C7: a `BulkMeasures` whose entries hold no measures (in particular one
with no `DataByTime` entries at all) reshapes to the explicit empty sentinel
`None` — not an error and not a table — and `multiple_bulk_measures_to_df`
over a list of such inputs likewise returns `None`. -/
theorem empty_reshapes_to_none (tz : Option Timezone) (station_id : String)
    (bms : BulkMeasures) (l : List BulkMeasures)
    (hbms : ∀ c ∈ bms.data, c.measures = [])
    (hl : ∀ bm ∈ l, ∀ c ∈ bm.data, c.measures = []) :
    bulk_measures_to_df bms tz station_id = .ok none ∧
      multiple_bulk_measures_to_df l tz station_id = .ok none := by
  refine ⟨bulk_measures_to_df_all_empty bms tz station_id hbms, ?_⟩
  unfold multiple_bulk_measures_to_df
  rw [collect_dfs_all_empty tz station_id l hl]
  rfl

/-- Witness for C7: a catalog-only `BulkMeasures` with no data entries, and
a list holding one such value. -/
theorem empty_reshapes_to_none_witness :
    bulk_measures_to_df { fieldlist := [sampleField 1], data := [] } none "ALTN" = .ok none ∧
      multiple_bulk_measures_to_df [{ fieldlist := [sampleField 1], data := [] }]
        none "ALTN" = .ok none :=
  empty_reshapes_to_none none "ALTN" _ _ (by simp) (by simp)

/-- C8: the reshaper's timestamp pipeline first interprets `collection_time`
as UTC and then converts — not relabels — to the target zone: the UTC
instant is unchanged, so converting back to UTC epoch seconds recovers the
original value exactly, for every zone; the wall clock shifts by the zone's
offset, and the modelled `America/Chicago` has distinct offsets at a January
and a July 2024 instant (a DST transition), with the round trip exact at
both. -/
theorem timezone_roundtrip :
    (∀ secs : Int, ∀ z : Timezone,
      toEpochUtc (reshaped_collection_time secs (some z)) = secs ∧
        (reshaped_collection_time secs (some z)).tz = some z ∧
        wallClock (reshaped_collection_time secs (some z)) = secs + z.offsetAt secs) ∧
    (∀ secs : Int, toEpochUtc (reshaped_collection_time secs none) = secs) ∧
    toEpochUtc (reshaped_collection_time 1704067200 (some americaChicago)) = 1704067200 ∧
    toEpochUtc (reshaped_collection_time 1720000000 (some americaChicago)) = 1720000000 ∧
    americaChicago.offsetAt 1704067200 = -21600 ∧
    americaChicago.offsetAt 1720000000 = -18000 := by
  refine ⟨fun secs z => ⟨rfl, rfl, rfl⟩, fun secs => rfl, rfl, rfl, ?_, ?_⟩ <;> decide

/-! ### Measurement fetcher and orchestrator (`data.py`) -/

/-- A query-string parameter value. -/
inductive ParamValue where
  | pint (v : Int)
  | pstr (v : String)
deriving DecidableEq, Repr

/-- One HTTP GET request: route plus query parameters. -/
structure Request where
  route : String
  params : List (String × ParamValue)
deriving DecidableEq, Repr

/-- The measures route for a station. -/
def measures_route (station_id : String) : String :=
  "/stations/" ++ station_id ++ "/measures"

/-- The request `bulk_measures` and `async_bulk_measures` build
(`data.py` lines 111-123 and 146-157): integer epoch start and end, plus a
`fields` parameter only when `fields` is truthy (`if fields:` — not `None`
and not the empty list). -/
def bulk_measures_request (station_id : String) (start_time end_time : Int)
    (fields : Option (List String)) : Request :=
  { route := measures_route station_id
    params :=
      [("start_time", ParamValue.pint start_time),
       ("end_time", ParamValue.pint end_time)] ++
      match fields with
      | some (f :: fs) => [("fields", ParamValue.pstr (String.intercalate "," (f :: fs)))]
      | _ => [] }

/-- A transport failure: HTTP status plus the request that failed
(`httpx.HTTPStatusError` carries its request, hence the failing route). -/
structure TransportError where
  status : Nat
  request : Request
deriving DecidableEq, Repr

/-- The HTTP transport collaborator: `client.get` followed by
`raise_for_status`, yielding a parsed `BulkMeasures` or a transport error. -/
def Transport : Type := Request → Except TransportError BulkMeasures

/-- `data.async_bulk_measures`: build the request and run it against the
transport. -/
def async_bulk_measures (transport : Transport) (station_id : String)
    (start_time end_time : Int) (fields : Option (List String)) :
    Except TransportError BulkMeasures :=
  transport (bulk_measures_request station_id start_time end_time fields)

/-- The value of a completed task, if it succeeded. -/
def except_value? (t : Except TransportError BulkMeasures) : Option BulkMeasures :=
  match t with
  | .ok bm => some bm
  | .error _ => none

/-- The first failure among `tasks` in the completion order `order`
(`asyncio.gather` raises the error of the first task to fail). -/
def first_error_in (tasks : List (Except TransportError BulkMeasures))
    (order : List Nat) : Option TransportError :=
  order.findSome? (fun i =>
    match tasks.get? i with
    | some (.error e) => some e
    | _ => none)

/-- `asyncio.gather` over an already-determined batch of task outcomes:
tasks complete in `order` (a permutation of the task indices); the first
error to arrive propagates, otherwise results are returned slotted by task
index, not by arrival order. -/
def gather_tasks (tasks : List (Except TransportError BulkMeasures))
    (order : List Nat) : Except TransportError (List BulkMeasures) :=
  match first_error_in tasks order with
  | some e => .error e
  | none => .ok (tasks.filterMap except_value?)

/-- `data.gather_async_bulk_measure_data`: chunk the range and gather one
`async_bulk_measures` task per chunk over the given completion order. -/
def gather_async_bulk_measure_data (transport : Transport) (station_id : String)
    (start_time end_time : Int) (chunk_days : Nat) (fields : Option (List String))
    (order : List Nat) : Except TransportError (List BulkMeasures) :=
  gather_tasks
    ((task_start_and_end_dts start_time end_time chunk_days).map
      (fun c => async_bulk_measures transport station_id c.start c.stop fields))
    order

instance : Inhabited BulkMeasures := ⟨⟨[], []⟩⟩

/-! ### Orchestrator lemmas -/

lemma first_error_in_eq_none (tasks : List (Except TransportError BulkMeasures))
    (order : List Nat) (h : ∀ t ∈ tasks, ∃ bm, t = .ok bm) :
    first_error_in tasks order = none := by
  unfold first_error_in
  rw [List.findSome?_eq_none_iff]
  intro i _
  cases hg : tasks.get? i with
  | none => rfl
  | some t =>
    obtain ⟨bm, hbm⟩ := h t (List.get?_mem hg)
    rw [hbm]

lemma filterMap_values_all_ok (tasks : List (Except TransportError BulkMeasures))
    (h : ∀ t ∈ tasks, ∃ bm, t = .ok bm) :
    (tasks.filterMap except_value?).length = tasks.length ∧
      ∀ i : Nat, i < tasks.length →
        tasks.getD i (.ok default) =
          .ok ((tasks.filterMap except_value?).getD i default) := by
  induction tasks with
  | nil => exact ⟨rfl, fun i hi => by simp at hi⟩
  | cons hd tl ih =>
    obtain ⟨bm, hbm⟩ := h hd (List.mem_cons_self hd tl)
    obtain ⟨ihlen, ihget⟩ := ih (fun t ht => h t (List.mem_cons_of_mem hd ht))
    subst hbm
    constructor
    · simp [List.filterMap_cons, except_value?, ihlen]
    · intro i hi
      cases i with
      | zero => simp [List.filterMap_cons, except_value?]
      | succ j =>
        have hj : j < tl.length := by simpa using hi
        simpa [List.filterMap_cons, except_value?] using ihget j hj

lemma chunks_nil_of_le (s e : Int) (d : Nat) (hse : e ≤ s) :
    task_start_and_end_dts s e d = [] := by
  unfold task_start_and_end_dts
  dsimp only
  rw [List.filter_eq_nil_iff.mpr ?_, List.map_nil]
  intro i _
  simp only [decide_eq_true_eq, not_lt]
  have h1 : (0 : Int) ≤ (i : Int) * d * daySecs :=
    mul_nonneg (mul_nonneg (Int.natCast_nonneg i) (Int.natCast_nonneg d))
      (by norm_num [daySecs])
  omega

lemma chunks_sorted (s e : Int) (d : Nat) (hd : 1 ≤ d) :
    List.Pairwise (fun a b => a.start < b.start) (task_start_and_end_dts s e d) := by
  by_cases hse : s < e
  · rw [chunks_eq_map s e d hse hd]
    refine List.Pairwise.map _ (fun i j (hij : i < j) => ?_) (List.pairwise_lt_range _)
    show s + (i : Int) * d * daySecs < s + (j : Int) * d * daySecs
    have h1 : (i : Int) < (j : Int) := by exact_mod_cast hij
    have hday : (0 : Int) < daySecs := by norm_num [daySecs]
    have hd0 : (0 : Int) < (d : Int) := by exact_mod_cast hd
    have key : (0 : Int) < ((j : Int) - i) * ((d : Int) * daySecs) :=
      mul_pos (by omega) (mul_pos hd0 hday)
    nlinarith [key]
  · rw [chunks_nil_of_le s e d (by omega)]
    exact List.Pairwise.nil

/-- C5: for every chunk batch and every completion order of the concurrent
per-chunk fetches, a gather in which every chunk's fetch succeeds returns
the results slotted by chunk index — position i holds the result of chunk
i — and the chunk list ascends by start time, so the returned collection is
ordered by chunk start time independently of arrival order. -/
theorem gather_order_invariant (transport : Transport) (station_id : String)
    (s e : Int) (d : Nat) (fields : Option (List String)) (order : List Nat)
    (hd : 1 ≤ d)
    (hok : ∀ c ∈ task_start_and_end_dts s e d,
      ∃ bm, async_bulk_measures transport station_id c.start c.stop fields = .ok bm) :
    ∃ results,
      gather_async_bulk_measure_data transport station_id s e d fields order = .ok results ∧
      results.length = (task_start_and_end_dts s e d).length ∧
      (∀ i : Nat, i < (task_start_and_end_dts s e d).length →
        async_bulk_measures transport station_id
          ((task_start_and_end_dts s e d).getD i ⟨0, 0⟩).start
          ((task_start_and_end_dts s e d).getD i ⟨0, 0⟩).stop fields =
          .ok (results.getD i default)) ∧
      List.Pairwise (fun a b => a.start < b.start) (task_start_and_end_dts s e d) := by
  set ch := task_start_and_end_dts s e d with hch
  set tasks := ch.map
    (fun c => async_bulk_measures transport station_id c.start c.stop fields) with htasks
  have hok' : ∀ t ∈ tasks, ∃ bm, t = .ok bm := by
    intro t ht
    rw [htasks] at ht
    obtain ⟨c, hc, hct⟩ := List.mem_map.mp ht
    obtain ⟨bm, hbm⟩ := hok c hc
    exact ⟨bm, by rw [← hct, hbm]⟩
  obtain ⟨hflen, hfget⟩ := filterMap_values_all_ok tasks hok'
  have hlen : tasks.length = ch.length := by rw [htasks, List.length_map]
  refine ⟨tasks.filterMap except_value?, ?_, ?_, ?_, chunks_sorted s e d hd⟩
  · unfold gather_async_bulk_measure_data gather_tasks
    rw [first_error_in_eq_none tasks order hok']
  · rw [hflen, hlen]
  · intro i hi
    have hi' : i < tasks.length := by omega
    have hgd := hfget i hi'
    have htaski : tasks.getD i (.ok default) =
        async_bulk_measures transport station_id
          (ch.getD i ⟨0, 0⟩).start (ch.getD i ⟨0, 0⟩).stop fields := by
      rw [htasks, List.getD_eq_getElem?_getD, List.getElem?_map,
        List.getElem?_eq_getElem (by omega : i < ch.length)]
      simp only [Option.map_some', Option.getD_some]
      rw [List.getD_eq_getElem?_getD, List.getElem?_eq_getElem (by omega : i < ch.length)]
      simp only [Option.getD_some]
    rw [← htaski, hgd]

/-- A transport that always fails with HTTP status 500 (witness data). -/
def failingTransport : Transport := fun req => .error { status := 500, request := req }

/-- A transport that always succeeds with an empty body (witness data). -/
def okTransport : Transport := fun _ => .ok { fieldlist := [], data := [] }

/-- Witness for C5: a two-chunk batch fetched in scrambled completion order
`[1, 0]` against an always-succeeding transport. -/
theorem gather_order_invariant_witness :
    ∃ results,
      gather_async_bulk_measure_data okTransport "ALTN" 0 172800 1 none [1, 0] = .ok results ∧
      results.length = (task_start_and_end_dts 0 172800 1).length ∧
      (∀ i : Nat, i < (task_start_and_end_dts 0 172800 1).length →
        async_bulk_measures okTransport "ALTN"
          ((task_start_and_end_dts 0 172800 1).getD i ⟨0, 0⟩).start
          ((task_start_and_end_dts 0 172800 1).getD i ⟨0, 0⟩).stop none =
          .ok (results.getD i default)) ∧
      List.Pairwise (fun a b => a.start < b.start) (task_start_and_end_dts 0 172800 1) :=
  gather_order_invariant okTransport "ALTN" 0 172800 1 none [1, 0] (by norm_num)
    (fun c _ => ⟨{ fieldlist := [], data := [] }, rfl⟩)

/-- C4: if any chunk's fetch fails, the whole gather fails with a transport
error raised by one of the chunks (no list of `BulkMeasures` is returned at
all), and — since the transport reports the request it was given — the
propagated error carries the failing route. -/
theorem first_failure_aborts (transport : Transport) (station_id : String)
    (s e : Int) (d : Nat) (fields : Option (List String)) (order : List Nat)
    (hperm : order.Perm (List.range (task_start_and_end_dts s e d).length))
    (c : TimeChunk) (hc : c ∈ task_start_and_end_dts s e d) (err : TransportError)
    (herr : async_bulk_measures transport station_id c.start c.stop fields = .error err)
    (hfaithful : ∀ req er, transport req = .error er → er.request = req) :
    ∃ er,
      gather_async_bulk_measure_data transport station_id s e d fields order = .error er ∧
      (∃ c2 ∈ task_start_and_end_dts s e d,
        async_bulk_measures transport station_id c2.start c2.stop fields = .error er) ∧
      er.request.route = measures_route station_id ∧
      ∀ l, gather_async_bulk_measure_data transport station_id s e d fields order ≠ .ok l := by
  set ch := task_start_and_end_dts s e d with hch
  set tasks := ch.map
    (fun c => async_bulk_measures transport station_id c.start c.stop fields) with htasks
  have hlen : tasks.length = ch.length := by rw [htasks, List.length_map]
  obtain ⟨i, hi, hci⟩ := List.getElem_of_mem hc
  have htaski : tasks.get? i = some (.error err) := by
    rw [htasks, List.get?_eq_getElem?, List.getElem?_map,
      List.getElem?_eq_getElem hi]
    simp only [Option.map_some']
    rw [hci, herr]
  have hiorder : i ∈ order := by
    rw [hperm.mem_iff]
    exact List.mem_range.mpr (by omega)
  have hfe : first_error_in tasks order ≠ none := by
    intro hnone
    unfold first_error_in at hnone
    have := List.findSome?_eq_none_iff.mp hnone i hiorder
    rw [htaski] at this
    exact Option.some_ne_none err this
  obtain ⟨er, her⟩ := Option.ne_none_iff_exists.mp hfe
  have her' : first_error_in tasks order = some er := her.symm
  have hgather : gather_async_bulk_measure_data transport station_id s e d fields order =
      .error er := by
    unfold gather_async_bulk_measure_data gather_tasks
    rw [← htasks, her']
  obtain ⟨j, hj, hjf⟩ := List.exists_of_findSome?_eq_some her'
  have htj : tasks.get? j = some (.error er) := by
    cases hg : tasks.get? j with
    | none => rw [hg] at hjf; exact absurd hjf (by simp)
    | some t =>
      cases t with
      | error e2 =>
        rw [hg] at hjf
        simp only [Option.some.injEq] at hjf
        rw [hjf]
      | ok bm => rw [hg] at hjf; exact absurd hjf (by simp)
  have hmem : (Except.error er : Except TransportError BulkMeasures) ∈ tasks :=
    List.get?_mem htj
  rw [htasks] at hmem
  obtain ⟨c2, hc2, hc2e⟩ := List.mem_map.mp hmem
  have hroute : er.request.route = measures_route station_id := by
    have := hfaithful _ er hc2e
    rw [this]
    rfl
  exact ⟨er, hgather, ⟨c2, hc2, hc2e⟩, hroute, fun l hl => by rw [hgather] at hl; cases hl⟩

/-- Witness for C4: a one-chunk batch against an always-failing transport. -/
theorem first_failure_aborts_witness :
    ∃ er,
      gather_async_bulk_measure_data failingTransport "ALTN" 0 1 1 none [0] = .error er ∧
      (∃ c2 ∈ task_start_and_end_dts 0 1 1,
        async_bulk_measures failingTransport "ALTN" c2.start c2.stop none = .error er) ∧
      er.request.route = measures_route "ALTN" ∧
      ∀ l, gather_async_bulk_measure_data failingTransport "ALTN" 0 1 1 none [0] ≠ .ok l :=
  first_failure_aborts failingTransport "ALTN" 0 1 1 none [0] (by decide)
    { start := 0, stop := 1 } (by decide)
    { status := 500, request := bulk_measures_request "ALTN" 0 1 none } rfl
    (fun req er h => by injection h with h2; rw [← h2])

/-- C6: when `start_time ≥ end_time` the chunker yields zero chunks, the
gather completes without error with the empty list for every transport and
completion order, and reshaping that empty list yields the explicit empty
sentinel `None`, not an exception and not a table. -/
theorem degenerate_range_empty (s e : Int) (d : Nat) (hse : e ≤ s) (_hd : 1 ≤ d) :
    task_start_and_end_dts s e d = [] ∧
    (∀ transport : Transport, ∀ station_id : String, ∀ fields : Option (List String),
      ∀ order : List Nat,
      gather_async_bulk_measure_data transport station_id s e d fields order = .ok []) ∧
    (∀ tz : Option Timezone, ∀ station_id : String,
      multiple_bulk_measures_to_df [] tz station_id = .ok none) := by
  have hnil := chunks_nil_of_le s e d hse
  refine ⟨hnil, ?_, ?_⟩
  · intro transport station_id fields order
    unfold gather_async_bulk_measure_data
    rw [hnil]
    have hfe : first_error_in [] order = none := by
      unfold first_error_in
      rw [List.findSome?_eq_none_iff]
      intro x _
      rfl
    unfold gather_tasks
    rw [List.map_nil, hfe]
    rfl
  · intro tz station_id
    rfl

/-- Witness for C6: `start_time = end_time = 0` with 30-day chunks. -/
theorem degenerate_range_empty_witness :
    task_start_and_end_dts 0 0 30 = [] ∧
    (∀ transport : Transport, ∀ station_id : String, ∀ fields : Option (List String),
      ∀ order : List Nat,
      gather_async_bulk_measure_data transport station_id 0 0 30 fields order = .ok []) ∧
    (∀ tz : Option Timezone, ∀ station_id : String,
      multiple_bulk_measures_to_df [] tz station_id = .ok none) :=
  degenerate_range_empty 0 0 30 (by norm_num) (by norm_num)

/-- C9: calling the measurement fetcher with `fields = []` produces exactly
the same request as omitting `fields` (`None`): `if fields:` is false for
both, so no `fields` query parameter is sent. -/
theorem empty_fields_same_request :
    (∀ station_id : String, ∀ s e : Int,
      bulk_measures_request station_id s e (some []) =
        bulk_measures_request station_id s e none) ∧
    (∀ transport : Transport, ∀ station_id : String, ∀ s e : Int,
      async_bulk_measures transport station_id s e (some []) =
        async_bulk_measures transport station_id s e none) ∧
    (∀ station_id : String, ∀ s e : Int,
      ((bulk_measures_request station_id s e (some [])).params.map Prod.fst).all
        (fun k => k != "fields") = true) :=
  ⟨fun _ _ _ => rfl, fun _ _ _ _ => rfl, fun _ _ _ => rfl⟩

/-! ### Station-local time conversion (`data.py` lines 70-88) -/

/-- A Python `datetime`: wall-clock fields (encoded as the epoch reading of
the wall clock as if it were UTC) plus the attached `tzinfo`, if any. -/
structure PyDatetime where
  wall : Int
  tzinfo : Option Timezone

/-- The UTC instant an aware datetime denotes: wall clock minus the zone's
offset at that wall clock (`none` for a naive datetime). -/
def denoted_instant (dt : PyDatetime) : Option Int :=
  dt.tzinfo.map (fun z => dt.wall - z.offsetAtWall dt.wall)

/-- `data.datetime_at_station_in_utc`:
`dt.replace(tzinfo=ZoneInfo(station.station_timezone)).astimezone(timezone.utc)`.
`replace` keeps the wall-clock fields and discards any tzinfo already
attached; `astimezone` then converts the reinterpreted datetime to UTC.
`station_zone` is the station's `station_timezone` resolved by `ZoneInfo`. -/
def datetime_at_station_in_utc (station_zone : Timezone) (dt : PyDatetime) : PyDatetime :=
  { wall := dt.wall - station_zone.offsetAtWall dt.wall, tzinfo := some utcTimezone }

/-- C10: `datetime_at_station_in_utc` discards any timezone information
already attached to its input — the result depends only on the wall-clock
fields, reinterpreted in the station's zone — so an aware input denoting
instant t maps to a different instant whenever the station's offset differs
from the input's offset at that time. -/
theorem station_conversion_discards_tzinfo (station_zone : Timezone) (w : Int)
    (z : Timezone) (hdiff : z.offsetAtWall w ≠ station_zone.offsetAtWall w) :
    (∀ tzi tzi' : Option Timezone,
      datetime_at_station_in_utc station_zone { wall := w, tzinfo := tzi } =
        datetime_at_station_in_utc station_zone { wall := w, tzinfo := tzi' }) ∧
    denoted_instant (datetime_at_station_in_utc station_zone
        { wall := w, tzinfo := some z }) ≠
      denoted_instant { wall := w, tzinfo := some z } := by
  refine ⟨fun _ _ => rfl, ?_⟩
  unfold datetime_at_station_in_utc denoted_instant utcTimezone
  simp only [Option.map_some']
  intro h
  apply hdiff
  have h2 := Option.some.inj h
  omega

/-- Witness for C10: a UTC-aware input converted as if local to the modelled
`America/Chicago` zone (offset -21600 at wall clock 0). -/
theorem station_conversion_discards_tzinfo_witness :
    (∀ tzi tzi' : Option Timezone,
      datetime_at_station_in_utc americaChicago { wall := 0, tzinfo := tzi } =
        datetime_at_station_in_utc americaChicago { wall := 0, tzinfo := tzi' }) ∧
    denoted_instant (datetime_at_station_in_utc americaChicago
        { wall := 0, tzinfo := some utcTimezone }) ≠
      denoted_instant { wall := 0, tzinfo := some utcTimezone } :=
  station_conversion_discards_tzinfo americaChicago 0 utcTimezone (by decide)

end Wiscopy
